import Mathlib

/-!
Shallow embedding of `src/core/src/scene/filters.cpp` (namespace Tangram): the
filter-tree data model, the cost estimator `Filter::filterCost`, the sibling
sorter `Filter::sort` with its comparator and `compareSetFilter`, and the
matcher/evaluator `Filter::eval` with its value-matching visitors
(`string_matcher`, `number_matcher`, `match_equal`, `match_equal_set`,
`match_range`).

Modelling conventions:
* C++ `double` values are embedded as `Dbl`: a rational (`ℚ`) for finite
  doubles plus the two signed infinities.  Every finite double is exactly a
  rational, and all double operations the translated code performs on the
  inputs appearing in the theorems below (comparisons, subtraction of small
  values, `std::fabs`) are exact on those rationals, so the rational model
  agrees with IEEE double arithmetic there.  NaN does not arise in any
  modelled path.
* Record property values (`Value` in `data/tileData.h`) are a tagged union of
  string, number and the absent sentinel `none_type`; numbers are modelled as
  finite (`ℚ`), which covers every value the claims quantify over.
* `std::vector` becomes `List`; the out-of-bounds element access in
  `compareSetFilter` (undefined behaviour in C++) is made explicit by an
  `Option` result.
* `std::sort` with a comparator is modelled as the stable insertion sort over
  that comparator; libstdc++ `std::sort` runs exactly an insertion sort on the
  short ranges used in the concrete theorems below, and every general theorem
  about `Filter.sort` proved here (permutation, element preservation) holds
  for any comparator-driven reordering.
-/

namespace Tangram

/-- Modelled from the spec: the value union of `data/tileData.h` (not under
`src/`), spec section 3: `String(text)`, `Number(float64)`, `Absent`
(`none_type` in the source).  Numbers are modelled as rationals (finite
doubles). -/
inductive Value where
  | str (s : String)
  | num (q : ℚ)
  | none_type
deriving DecidableEq

/-- Model of a C++ `double` as used for `Filter::Range` bounds: a rational for
a finite double, or one of the signed infinities.  NaN is not modelled (no
modelled code path produces one). -/
inductive Dbl where
  | fin (q : ℚ)
  | pinf
  | ninf
deriving DecidableEq

/-- Dbl.isinf models `std::isinf`: true exactly on the two infinities. -/
def Dbl.isinf : Dbl → Bool
  | .pinf => true
  | .ninf => true
  | .fin _ => false

/-- Modelled from the spec: `FilterGlobal` (declared in `scene/filters.h`, not
under `src/`), an enumerated reference to a context-provided variable, with
`undefined` meaning the leaf reads the record property store (spec
sections 3 and 4.1; the spec names zoom and geometry as the globals). -/
inductive FilterGlobal where
  | undefined
  | zoom
  | geometry
deriving DecidableEq

/-- Modelled from the spec: the filter tagged union of `scene/filters.h` (not
under `src/`), with exactly the payloads spec section 3 lists and the
alternatives `filters.cpp` dispatches on.  `none_type` is the no-op filter
alternative (the variant's `none_type` member). -/
inductive Filter where
  | opAny (operands : List Filter)
  | opAll (operands : List Filter)
  | opNone (operands : List Filter)
  | existence (key : String) (exist : Bool)
  | equality (key : String) (value : Value) (global : FilterGlobal)
  | equalitySet (key : String) (values : List Value) (global : FilterGlobal)
  | range (key : String) (min max : Dbl) (global : FilterGlobal)
  | function (id : Nat)
  | none_type

mutual

/-- Filter::filterCost (filters.cpp lines 90-127) with assertions disabled:
the three operator alternatives add their operands' costs to the initial
`sum = 100`; the leaves return their constant directly; the unhandled
`none_type` alternative falls through the switch to `assert(false); return 0`,
so it yields 0 here (`filterCostChecked` below models the assertion). -/
def Filter.filterCost : Filter → Int
  | .opAny ops => 100 + costList ops
  | .opAll ops => 100 + costList ops
  | .opNone ops => 100 + costList ops
  | .existence _ _ => 20
  | .equalitySet _ _ g => if g = .undefined then 10 else 1
  | .equality _ _ g => if g = .undefined then 10 else 1
  | .range _ _ _ g => if g = .undefined then 10 else 1
  | .function _ => 1000
  | .none_type => 0

/-- The `for (auto& f : operands()) { sum += f.filterCost(); }` loops of
Filter::filterCost, as the sum over a list. -/
def costList : List Filter → Int
  | [] => 0
  | f :: fs => f.filterCost + costList fs

end

mutual

/-- Filter::filterCost with the `assert(false)` modelled: `none` when the
dispatch falls through, i.e. when the filter (or, through the operator cases,
any transitive operand) is the `none_type` alternative. -/
def filterCostChecked : Filter → Option Int
  | .opAny ops => match costListChecked ops with
      | some s => some (100 + s)
      | _ => none
  | .opAll ops => match costListChecked ops with
      | some s => some (100 + s)
      | _ => none
  | .opNone ops => match costListChecked ops with
      | some s => some (100 + s)
      | _ => none
  | .existence _ _ => some 20
  | .equalitySet _ _ g => some (if g = .undefined then 10 else 1)
  | .equality _ _ g => some (if g = .undefined then 10 else 1)
  | .range _ _ _ g => some (if g = .undefined then 10 else 1)
  | .function _ => some 1000
  | .none_type => none

/-- Summing checked costs over an operand list: `none` as soon as one operand's
checked cost is `none`. -/
def costListChecked : List Filter → Option Int
  | [] => some 0
  | f :: fs => match filterCostChecked f, costListChecked fs with
      | some a, some b => some (a + b)
      | _, _ => none

end

mutual

/-- noNoneVariant f is true when neither `f` nor any transitive operand of `f`
is the `none_type` filter alternative: the precondition under which
Filter::filterCost never reaches its `assert(false)`. -/
def noNoneVariant : Filter → Bool
  | .opAny ops => noNoneList ops
  | .opAll ops => noNoneList ops
  | .opNone ops => noNoneList ops
  | .existence _ _ => true
  | .equalitySet _ _ _ => true
  | .equality _ _ _ => true
  | .range _ _ _ _ => true
  | .function _ => true
  | .none_type => false

/-- noNoneList: `noNoneVariant` holds of every member of the list. -/
def noNoneList : List Filter → Bool
  | [] => true
  | f :: fs => noNoneVariant f && noNoneList fs

end

/-- Filter::key (filters.cpp lines 129-150): the key of the four keyed leaf
alternatives, the empty string otherwise. -/
def Filter.key : Filter → String
  | .existence k _ => k
  | .equalitySet k _ _ => k
  | .equality k _ _ => k
  | .range k _ _ _ => k
  | _ => ""

/-- Filter::operands (filters.cpp lines 152-169): the operand list of the
three operator alternatives, the empty list otherwise. -/
def Filter.operands : Filter → List Filter
  | .opAny ops => ops
  | .opAll ops => ops
  | .opNone ops => ops
  | _ => []

/-- Filter::isOperator (filters.cpp lines 171-187). -/
def Filter.isOperator : Filter → Bool
  | .opAny _ => true
  | .opAll _ => true
  | .opNone _ => true
  | _ => false

/-- C++ conversion of a double value to `int`: truncation toward zero.  Used
by `compareSetFilter`, whose `return rb.min - ra.min;` converts the double
difference to the function's `int` return type. -/
def truncToInt (q : ℚ) : Int := if q < 0 then ⌈q⌉ else ⌊q⌋

/-- The double subtraction `x - y` followed by the implicit conversion to
`int` in `compareSetFilter`.  On non-finite operands the C++ conversion is
undefined behaviour; the model returns 0 there (no theorem below depends on
that case). -/
def Dbl.subTrunc : Dbl → Dbl → Int
  | .fin x, .fin y => truncToInt (x - y)
  | _, _ => 0

/-- The body of compareSetFilter after the first element of each operand list
has been read (filters.cpp lines 195-207): when both first operands are Range
filters on the same key and both ranges have an infinite `max`, the int-
truncated difference `rb.min - ra.min`; every other shape falls through to
`return 0`. -/
def rangeTieBreak : Filter → Filter → Int
  | .range ka amin amax _, .range kb bmin bmax _ =>
      if ka == kb then
        (if amax.isinf && bmax.isinf then Dbl.subTrunc bmin amin else 0)
      else 0
  | _, _ => 0

/-- The reads `oa[0]` / `ob[0]` of compareSetFilter followed by
`rangeTieBreak`: `none` marks the undefined out-of-bounds access on an empty
vector; the defined branches always produce an int. -/
def headTieBreak : List Filter → List Filter → Option Int
  | fa :: _, fb :: _ => some (rangeTieBreak fa fb)
  | _, _ => none

/-- compareSetFilter (filters.cpp lines 189-208).  The source returns `int`;
here the result is an `Option Int` whose `none` case marks the undefined
out-of-bounds reads on empty operand vectors, reached exactly when the two
operand lists have equal length and are empty.  The size branch returns the
C++ bool `oa.size() < ob.size()` converted to int (1 or 0). -/
def compareSetFilter (a b : Filter) : Option Int :=
  if a.operands.length ≠ b.operands.length then
    some (if a.operands.length < b.operands.length then 1 else 0)
  else headTieBreak a.operands b.operands

/-- The comparator lambda of Filter::sort (filters.cpp lines 213-237).  The
C++ `a.key() > b.key()` is `std::string` lexicographic comparison, modelled by
Lean's lexicographic `String` order (identical on the ASCII keys involved).
At the undefined `compareSetFilter` case the model reads 0 (no theorem below
depends on that case). -/
def sortLess (a b : Filter) : Bool :=
  if !a.isOperator && !b.isOperator then
    if a.filterCost - b.filterCost ≠ 0 then decide (a.filterCost - b.filterCost < 0)
    else decide (b.key < a.key)
  else if a.filterCost ≠ b.filterCost then decide (a.filterCost < b.filterCost)
  else decide ((compareSetFilter a b).getD 0 < 0)

/-- Insertion step of the stable insertion sort modelling `std::sort`: `x` is
placed before the first element it is not strictly preceded by. -/
def insertBy (less : Filter → Filter → Bool) (x : Filter) : List Filter → List Filter
  | [] => [x]
  | y :: ys => if less y x then y :: insertBy less x ys else x :: y :: ys

/-- Stable insertion sort over a boolean strict comparator. -/
def sortBy (less : Filter → Filter → Bool) : List Filter → List Filter
  | [] => []
  | x :: xs => insertBy less x (sortBy less xs)

/-- Filter::sort (filters.cpp lines 210-241): copies the sibling list and
reorders it with `std::sort` under the comparator `sortLess`; the copy is
returned and the input vector is left unmodified (the functional model returns
a new list by construction). -/
def Filter.sort (filters : List Filter) : List Filter := sortBy sortLess filters

/-- Modelled from the spec: the record property store (`Properties` of
`data/tileData.h`, not under `src/`), spec section 6: `contains(key) -> bool`
and `get(key) -> Value`, where `get` yields the `Absent` sentinel
(`none_type`) for a missing key.  Modelled as an association list. -/
structure Properties where
  entries : List (String × Value)

/-- Properties.contains: whether the store holds the key. -/
def Properties.contains (p : Properties) (key : String) : Bool :=
  p.entries.any (fun kv => kv.1 == key)

/-- Properties.get: the stored value, or `none_type` for a missing key. -/
def Properties.get (p : Properties) (key : String) : Value :=
  match p.entries.find? (fun kv => kv.1 == key) with
  | some kv => kv.2
  | none => Value.none_type

/-- Modelled from the spec: the context accessor (`scene/styleContext.h`, not
under `src/`), spec section 6: `getGlobal(ref) -> Value` and the external
predicate evaluator `evalFilter(id) -> bool`. -/
structure StyleContext where
  getGlobal : FilterGlobal → Value
  evalFilter : Nat → Bool

/-- Modelled from the spec: a record (`Feature` of `data/tileData.h`, not
under `src/`); the matcher reads only its property store `props`. -/
structure Feature where
  props : Properties

/-- std::numeric_limits of double, epsilon(): the machine epsilon 2 ^ (-52),
exact as a rational. -/
def machineEps : ℚ := 1 / 2 ^ 52

/-- string_matcher (filters.cpp lines 244-253), visited over a `Value`: true
only on a string exactly equal to `str`; the template catch-all returns false
for a number or the absent sentinel. -/
def string_matcher (str : String) : Value → Bool
  | .str v => str == v
  | _ => false

/-- number_matcher (filters.cpp lines 255-265), visited over a `Value`: on a
number, true when identical or within machine epsilon (`std::fabs(num - v) <=
epsilon`); the template catch-all returns false for a string or the absent
sentinel. -/
def number_matcher (num : ℚ) : Value → Bool
  | .num v => if num = v then true else decide (|num - v| ≤ machineEps)
  | _ => false

/-- match_equal_set (filters.cpp lines 267-293), dispatching on the resolved
value: a resolved number (resp. string) matches when some entry of `values`
matches it under `number_matcher` (resp. `string_matcher`); the template
catch-all returns false on the absent sentinel.  The source's early-return
loop is `List.any`. -/
def match_equal_set (values : List Value) : Value → Bool
  | .num num => values.any (number_matcher num)
  | .str str => values.any (string_matcher str)
  | .none_type => false

/-- match_equal (filters.cpp lines 295-308), dispatching on the resolved
value: a resolved number (resp. string) is matched against the filter's
`value` under `number_matcher` (resp. `string_matcher`); the template
catch-all returns false on the absent sentinel. -/
def match_equal (value : Value) : Value → Bool
  | .num num => number_matcher num value
  | .str str => string_matcher str value
  | .none_type => false

/-- Dbl.leQ d q models the double comparison `d <= q` for finite `q` (IEEE
semantics on the infinities, no NaN). -/
def Dbl.leQ : Dbl → ℚ → Bool
  | .fin x, q => decide (x ≤ q)
  | .pinf, _ => false
  | .ninf, _ => true

/-- Dbl.gtQ d q models the double comparison `q < d` for finite `q`. -/
def Dbl.gtQ : Dbl → ℚ → Bool
  | .fin x, q => decide (q < x)
  | .pinf, _ => true
  | .ninf, _ => false

/-- match_range (filters.cpp lines 310-318): a number matches when
`num >= f.min && num < f.max`; a string or the absent sentinel never does. -/
def match_range (min max : Dbl) : Value → Bool
  | .num num => min.leQ num && max.gtQ num
  | .str _ => false
  | .none_type => false

/-- The per-leaf value resolution shared by the Equality / EqualitySet / Range
cases of the matcher (filters.cpp lines 354-374): the record property when no
global reference is set, the context-provided global otherwise. -/
def resolveValue (props : Properties) (ctx : StyleContext)
    (key : String) (global : FilterGlobal) : Value :=
  if global = .undefined then props.get key else ctx.getGlobal global

mutual

/-- The matcher visitor (filters.cpp lines 320-381) applied to a filter's
data: operator alternatives fold their operands (`evalAnyList` etc. are the
source's early-return loops), `Existence` compares the requested flag with
`props.contains`, the three value leaves resolve their value and apply the
matching visitor, `Function` delegates to the context, and the `none_type`
filter evaluates true. -/
def matcherEval (props : Properties) (ctx : StyleContext) : Filter → Bool
  | .opAny ops => evalAnyList props ctx ops
  | .opAll ops => evalAllList props ctx ops
  | .opNone ops => evalNoneList props ctx ops
  | .existence k e => e == props.contains k
  | .equalitySet k vs g => match_equal_set vs (resolveValue props ctx k g)
  | .equality k v g => match_equal v (resolveValue props ctx k g)
  | .range k mn mx g => match_range mn mx (resolveValue props ctx k g)
  | .function i => ctx.evalFilter i
  | .none_type => true

/-- OperatorAny loop: return true on the first operand that evaluates true,
false after the loop. -/
def evalAnyList (props : Properties) (ctx : StyleContext) : List Filter → Bool
  | [] => false
  | f :: fs => matcherEval props ctx f || evalAnyList props ctx fs

/-- OperatorAll loop: return false on the first operand that evaluates false,
true after the loop. -/
def evalAllList (props : Properties) (ctx : StyleContext) : List Filter → Bool
  | [] => true
  | f :: fs => matcherEval props ctx f && evalAllList props ctx fs

/-- OperatorNone loop: return false on the first operand that evaluates true,
true after the loop. -/
def evalNoneList (props : Properties) (ctx : StyleContext) : List Filter → Bool
  | [] => true
  | f :: fs => if matcherEval props ctx f then false else evalNoneList props ctx fs

end

/-- Filter::eval (filters.cpp lines 383-385): visit the filter's data with a
matcher over the feature's properties and the style context. -/
def Filter.eval (f : Filter) (feat : Feature) (ctx : StyleContext) : Bool :=
  matcherEval feat.props ctx f

/-- Order embedding of the double model into the extended rationals
`WithBot (WithTop ℚ)` (finite values between the two infinities), used to
state the Range semantics against Mathlib's order rather than against the
embedded comparison functions themselves. -/
def Dbl.toWB : Dbl → WithBot (WithTop ℚ)
  | .fin q => ((q : WithTop ℚ) : WithBot (WithTop ℚ))
  | .pinf => ((⊤ : WithTop ℚ) : WithBot (WithTop ℚ))
  | .ninf => ⊥

/-- Concrete sibling: an OperatorAll with one operand, cost 100 + 20 = 120. -/
def oneOperandAll : Filter := .opAll [.existence "a" true]

/-- Concrete sibling: an OperatorAll with two operands, cost
100 + 10 + 10 = 120 — cost-tied with `oneOperandAll` but with more
operands. -/
def twoOperandAll : Filter :=
  .opAll [.equality "a" (.num 1) .undefined, .equality "b" (.num 1) .undefined]

/-- Concrete sibling: an OperatorAll wrapping a Range on key k with min 1/2
and infinite max (cost 110). -/
def halfMinAll : Filter := .opAll [.range "k" (.fin (1 / 2)) .pinf .undefined]

/-- Concrete sibling: an OperatorAll wrapping a Range on key k with min 0 and
infinite max (cost 110) — cost-tied with `halfMinAll`, same operand count,
same key, both maxes infinite, smaller min. -/
def zeroMinAll : Filter := .opAll [.range "k" (.fin 0) .pinf .undefined]

/-- Concrete sibling: an OperatorAll wrapping a Range on key k with min 2 and
infinite max (cost 110) — cost-tied with `zeroMinAll`, min larger by 2. -/
def twoMinAll : Filter := .opAll [.range "k" (.fin 2) .pinf .undefined]

theorem evalAnyList_eq_any (p : Properties) (c : StyleContext) (fs : List Filter) :
    evalAnyList p c fs = fs.any (matcherEval p c) := by
  induction fs with
  | nil => simp [evalAnyList]
  | cons f fs ih => simp [evalAnyList, ih]

theorem evalAllList_eq_all (p : Properties) (c : StyleContext) (fs : List Filter) :
    evalAllList p c fs = fs.all (matcherEval p c) := by
  induction fs with
  | nil => simp [evalAllList]
  | cons f fs ih => simp [evalAllList, ih]

theorem evalNoneList_eq_all_not (p : Properties) (c : StyleContext) (fs : List Filter) :
    evalNoneList p c fs = fs.all (fun f => !matcherEval p c f) := by
  induction fs with
  | nil => simp [evalNoneList]
  | cons f fs ih => cases h : matcherEval p c f <;> simp [evalNoneList, h, ih]

/-- C1: eval of the boolean combinators follows the spec semantics: OperatorAny
is true iff some operand evaluates true (so an empty operand list yields
false), OperatorAll is true iff every operand evaluates true (empty list
true), OperatorNone is true iff no operand evaluates true (empty list true),
and the None filter always evaluates true. -/
theorem combinator_eval_semantics (feat : Feature) (ctx : StyleContext) :
    (∀ fs : List Filter,
      (Filter.opAny fs).eval feat ctx = true ↔ ∃ f ∈ fs, f.eval feat ctx = true)
  ∧ (Filter.opAny []).eval feat ctx = false
  ∧ (∀ fs : List Filter,
      (Filter.opAll fs).eval feat ctx = true ↔ ∀ f ∈ fs, f.eval feat ctx = true)
  ∧ (Filter.opAll []).eval feat ctx = true
  ∧ (∀ fs : List Filter,
      (Filter.opNone fs).eval feat ctx = true ↔ ¬ ∃ f ∈ fs, f.eval feat ctx = true)
  ∧ (Filter.opNone []).eval feat ctx = true
  ∧ Filter.none_type.eval feat ctx = true := by
  refine ⟨?_, ?_, ?_, ?_, ?_, ?_, ?_⟩
  · intro fs
    simp [Filter.eval, matcherEval, evalAnyList_eq_any, List.any_eq_true]
  · simp [Filter.eval, matcherEval, evalAnyList]
  · intro fs
    simp [Filter.eval, matcherEval, evalAllList_eq_all, List.all_eq_true]
  · simp [Filter.eval, matcherEval, evalAllList]
  · intro fs
    simp [Filter.eval, matcherEval, evalNoneList_eq_all_not, List.all_eq_true]
  · simp [Filter.eval, matcherEval, evalNoneList]
  · simp [Filter.eval, matcherEval]

theorem costList_eq_sum (l : List Filter) :
    costList l = (l.map Filter.filterCost).sum := by
  induction l with
  | nil => simp [costList]
  | cons f fs ih => simp [costList, ih]

/-- C3: the cost estimator's exact values: each operator alternative costs 100
plus the sum of its operands' costs; Existence costs 20; Equality, EqualitySet
and Range cost 10 when resolved from the record's property store
(global = undefined) and 1 when a global reference is set; Function costs
1000. -/
theorem filterCost_values :
    (∀ ops : List Filter,
      (Filter.opAny ops).filterCost = 100 + (ops.map Filter.filterCost).sum)
  ∧ (∀ ops : List Filter,
      (Filter.opAll ops).filterCost = 100 + (ops.map Filter.filterCost).sum)
  ∧ (∀ ops : List Filter,
      (Filter.opNone ops).filterCost = 100 + (ops.map Filter.filterCost).sum)
  ∧ (∀ k e, (Filter.existence k e).filterCost = 20)
  ∧ (∀ k v, (Filter.equality k v FilterGlobal.undefined).filterCost = 10)
  ∧ (∀ k v g, g ≠ FilterGlobal.undefined → (Filter.equality k v g).filterCost = 1)
  ∧ (∀ k vs, (Filter.equalitySet k vs FilterGlobal.undefined).filterCost = 10)
  ∧ (∀ k vs g, g ≠ FilterGlobal.undefined →
      (Filter.equalitySet k vs g).filterCost = 1)
  ∧ (∀ k mn mx, (Filter.range k mn mx FilterGlobal.undefined).filterCost = 10)
  ∧ (∀ k mn mx g, g ≠ FilterGlobal.undefined →
      (Filter.range k mn mx g).filterCost = 1)
  ∧ (∀ i, (Filter.function i).filterCost = 1000) := by
  refine ⟨?_, ?_, ?_, ?_, ?_, ?_, ?_, ?_, ?_, ?_, ?_⟩ <;>
    intros <;> simp [Filter.filterCost, costList_eq_sum, *]

theorem equality_num_match (a b : ℚ) :
    match_equal (Value.num a) (Value.num b) = true ↔
      (a = b ∨ |a - b| ≤ machineEps) := by
  constructor
  · intro hm
    by_cases h : b = a
    · exact Or.inl h.symm
    · right
      have hd : decide (|b - a| ≤ machineEps) = true := by
        simpa [match_equal, number_matcher, h] using hm
      rw [abs_sub_comm]
      exact of_decide_eq_true hd
  · intro hd
    by_cases h : b = a
    · simp [match_equal, number_matcher, h]
    · have hle : |b - a| ≤ machineEps := by
        rcases hd with rfl | hle
        · exact absurd rfl h
        · rwa [abs_sub_comm]
      simp [match_equal, number_matcher, h, hle]

/-- C4: Equality matching is type-directed with numeric tolerance: a string
filter value matches exactly the equal string resolved value; a numeric filter
value matches a numeric resolved value iff they are identical or differ by at
most machine epsilon; a string never matches a number or vice versa; and the
Absent sentinel matches nothing, on either side. -/
theorem equality_match_semantics :
    (∀ s t, match_equal (Value.str s) (Value.str t) = true ↔ s = t)
  ∧ (∀ a b, match_equal (Value.num a) (Value.num b) = true ↔
      (a = b ∨ |a - b| ≤ machineEps))
  ∧ (∀ s b, match_equal (Value.str s) (Value.num b) = false)
  ∧ (∀ a t, match_equal (Value.num a) (Value.str t) = false)
  ∧ (∀ v, match_equal v Value.none_type = false)
  ∧ (∀ v, match_equal Value.none_type v = false) := by
  refine ⟨?_, equality_num_match, ?_, ?_, ?_, ?_⟩
  · intro s t
    rw [match_equal, string_matcher]
    simp [beq_iff_eq]
    exact eq_comm
  · intro s b
    simp [match_equal, number_matcher]
  · intro a t
    simp [match_equal, string_matcher]
  · intro v
    simp [match_equal]
  · intro v
    cases v <;> simp [match_equal, number_matcher, string_matcher]

/-- C6: an EqualitySet filter matches iff the resolved value equals at least
one entry of the accepted set under the per-type equality rule embodied by
`match_equal`; an EqualitySet with an empty value sequence matches no resolved
value. -/
theorem equality_set_match_semantics :
    (∀ (vs : List Value) (rv : Value),
      match_equal_set vs rv = true ↔ ∃ v ∈ vs, match_equal v rv = true)
  ∧ (∀ rv : Value, match_equal_set [] rv = false) := by
  constructor
  · intro vs rv
    cases rv <;> simp [match_equal_set, match_equal, List.any_eq_true]
  · intro rv
    cases rv <;> simp [match_equal_set]

theorem insertBy_perm (less : Filter → Filter → Bool) (x : Filter)
    (l : List Filter) : (insertBy less x l).Perm (x :: l) := by
  induction l with
  | nil => exact List.Perm.refl _
  | cons y ys ih =>
    rw [insertBy]
    split
    · exact (ih.cons y).trans (List.Perm.swap x y ys)
    · exact List.Perm.refl _

theorem sortBy_perm (less : Filter → Filter → Bool) (l : List Filter) :
    (sortBy less l).Perm l := by
  induction l with
  | nil => exact List.Perm.refl _
  | cons x xs ih => exact (insertBy_perm less x (sortBy less xs)).trans (ih.cons x)

/-- C8: sort returns a permutation of its input sibling list, leaving the
input unmodified (the model is functional; the source copies the vector before
sorting) and touching no filter node itself: every element of the output is an
element of the input, unchanged, so nested operand sequences are not
reordered. -/
theorem sort_is_sibling_permutation (l : List Filter) :
    (Filter.sort l).Perm l ∧ ∀ f ∈ Filter.sort l, f ∈ l := by
  refine ⟨sortBy_perm sortLess l, ?_⟩
  intro f hf
  exact (sortBy_perm sortLess l).mem_iff.mp hf

/-- C9: compareSetFilter reads the first operand of both filters without an
emptiness guard: the out-of-bounds access (the `none` result of the embedding)
happens exactly when the two operand lists have equal length and are empty,
i.e. it is unreachable precisely when filters reaching the tie-break have
non-empty operand lists (different operand counts return early). -/
theorem compareSetFilter_index_oob_iff (a b : Filter) :
    compareSetFilter a b = none ↔ (a.operands = [] ∧ b.operands = []) := by
  rcases ha : a.operands with _ | ⟨fa, ta⟩ <;>
    rcases hb : b.operands with _ | ⟨fb, tb⟩
  · simp [compareSetFilter, headTieBreak, ha, hb]
  · simp [compareSetFilter, headTieBreak, ha, hb]
  · simp [compareSetFilter, headTieBreak, ha, hb]
  · rw [compareSetFilter]
    rw [ha, hb]
    split
    · simp [ha]
    · simp [headTieBreak, ha]

mutual

theorem filterCostChecked_isSome : ∀ f : Filter,
    (filterCostChecked f).isSome = noNoneVariant f
  | .opAny ops => by
      rw [filterCostChecked, noNoneVariant, ← costListChecked_isSome ops]
      cases costListChecked ops <;> simp
  | .opAll ops => by
      rw [filterCostChecked, noNoneVariant, ← costListChecked_isSome ops]
      cases costListChecked ops <;> simp
  | .opNone ops => by
      rw [filterCostChecked, noNoneVariant, ← costListChecked_isSome ops]
      cases costListChecked ops <;> simp
  | .existence k e => by simp [filterCostChecked, noNoneVariant]
  | .equalitySet k vs g => by simp [filterCostChecked, noNoneVariant]
  | .equality k v g => by simp [filterCostChecked, noNoneVariant]
  | .range k mn mx g => by simp [filterCostChecked, noNoneVariant]
  | .function i => by simp [filterCostChecked, noNoneVariant]
  | .none_type => by simp [filterCostChecked, noNoneVariant]

theorem costListChecked_isSome : ∀ l : List Filter,
    (costListChecked l).isSome = noNoneList l
  | [] => by simp [costListChecked, noNoneList]
  | f :: fs => by
      rw [costListChecked, noNoneList, ← filterCostChecked_isSome f,
        ← costListChecked_isSome fs]
      cases filterCostChecked f <;> cases costListChecked fs <;> simp

end

/-- C10: the cost dispatch has no case for the None filter alternative: with
assertions disabled it falls through to `return 0`; the assertion-aware cost
is undefined exactly on filters containing the None alternative, so it is
total precisely under the precondition that the filter and all transitive
operands avoid that alternative. -/
theorem filterCost_none_variant_undefined :
    Filter.filterCost Filter.none_type = 0
  ∧ filterCostChecked Filter.none_type = none
  ∧ (∀ f : Filter, (filterCostChecked f).isSome = noNoneVariant f) :=
  ⟨rfl, rfl, filterCostChecked_isSome⟩

theorem match_range_num_iff (mn mx : Dbl) (q : ℚ) :
    match_range mn mx (Value.num q) = true ↔
      (mn.toWB ≤ (Dbl.fin q).toWB ∧ (Dbl.fin q).toWB < mx.toWB) := by
  have hqtop : ((q : WithTop ℚ) : WithBot (WithTop ℚ)) < ⊤ := by
    rw [← WithBot.coe_top]
    exact WithBot.coe_lt_coe.mpr (WithTop.coe_lt_top q)
  have hnottop :
      ¬ ((⊤ : WithBot (WithTop ℚ)) ≤ ((q : WithTop ℚ) : WithBot (WithTop ℚ))) := by
    rw [← WithBot.coe_top, WithBot.coe_le_coe, top_le_iff]
    exact WithTop.coe_ne_top
  cases mn <;> cases mx <;>
    simp [match_range, Dbl.leQ, Dbl.gtQ, Dbl.toWB, WithBot.coe_le_coe,
      WithBot.coe_lt_coe, WithTop.coe_le_coe, WithTop.coe_lt_coe,
      hqtop, hnottop, bot_le, not_lt_bot]

/-- C5: a Range filter matches iff the resolved value is numeric and min ≤
value < max in the extended order (min inclusive, max exclusive, infinite
bounds allowed); a string or the Absent sentinel — including a missing record
key — never matches; and a malformed range with min > max matches no value at
all. -/
theorem range_match_semantics :
    (∀ (mn mx : Dbl) (q : ℚ),
      match_range mn mx (Value.num q) = true ↔
        (mn.toWB ≤ (Dbl.fin q).toWB ∧ (Dbl.fin q).toWB < mx.toWB))
  ∧ (∀ (mn mx : Dbl) (s : String), match_range mn mx (Value.str s) = false)
  ∧ (∀ mn mx : Dbl, match_range mn mx Value.none_type = false)
  ∧ (∀ (p : Properties) (c : StyleContext) (k : String) (mn mx : Dbl),
      p.get k = Value.none_type →
      (Filter.range k mn mx FilterGlobal.undefined).eval ⟨p⟩ c = false)
  ∧ (∀ (mn mx : Dbl) (v : Value),
      mx.toWB < mn.toWB → match_range mn mx v = false) := by
  refine ⟨match_range_num_iff, ?_, ?_, ?_, ?_⟩
  · intro mn mx s
    rfl
  · intro mn mx
    rfl
  · intro p c k mn mx hget
    simp [Filter.eval, matcherEval, resolveValue, hget, match_range]
  · intro mn mx v h
    cases v with
    | num q =>
      cases hmr : match_range mn mx (Value.num q) with
      | false => rfl
      | true =>
        obtain ⟨h1, h2⟩ := (match_range_num_iff mn mx q).mp hmr
        exact absurd (lt_of_le_of_lt h1 h2) (lt_asymm h)
    | str s => rfl
    | none_type => rfl

/-- C2 (code bug evidence): two cost-tied operator siblings with different
operand counts are never reordered by sort, in either input order — the
comparator tests `compareSetFilter(a, b) < 0`, but the operand-count branch
returns the bool `oa.size() < ob.size()` as an int (1 or 0), never negative,
so the claimed fewer-operands-first tie-break has no effect. -/
theorem operand_count_tiebreak_not_applied :
    twoOperandAll.filterCost = oneOperandAll.filterCost
  ∧ oneOperandAll.operands.length < twoOperandAll.operands.length
  ∧ Filter.sort [twoOperandAll, oneOperandAll] = [twoOperandAll, oneOperandAll]
  ∧ Filter.sort [oneOperandAll, twoOperandAll] = [oneOperandAll, twoOperandAll] :=
  ⟨rfl, by decide, rfl, rfl⟩

theorem truncToInt_neg (q : ℚ) (h : q ≤ -1) : truncToInt q < 0 := by
  rw [truncToInt, if_pos (lt_of_le_of_lt h (by norm_num))]
  have hc : (⌈q⌉ : ℤ) ≤ -1 := Int.ceil_le.mpr (by exact_mod_cast h)
  omega

theorem truncToInt_nonneg (q : ℚ) (h : 0 ≤ q) : 0 ≤ truncToInt q := by
  rw [truncToInt, if_neg (not_lt.mpr h)]
  exact Int.floor_nonneg.mpr h

/-- C7 as stated is false: `halfMinAll` and `zeroMinAll` are cost-tied
OperatorAll siblings with equal operand counts whose first operands are
Ranges on the same key with infinite upper bounds, and `halfMinAll`'s min
(1/2) is strictly larger than `zeroMinAll`'s (0); yet sort orders the pair as
given in either input order — the min difference 1/2 truncates to the int 0,
so the comparator reports a tie instead of preferring the larger min. -/
theorem range_tiebreak_small_diff_cex :
    halfMinAll.filterCost = zeroMinAll.filterCost
  ∧ halfMinAll.operands.length = zeroMinAll.operands.length
  ∧ Filter.sort [zeroMinAll, halfMinAll] = [zeroMinAll, halfMinAll]
  ∧ Filter.sort [halfMinAll, zeroMinAll] = [halfMinAll, zeroMinAll] := by
  have e1 : truncToInt (-(2⁻¹ : ℚ)) = 0 := by
    rw [truncToInt, if_pos (by norm_num)]
    rw [Int.ceil_eq_iff]
    norm_num
  have e2 : truncToInt ((2⁻¹ : ℚ)) = 0 := by
    rw [truncToInt, if_neg (by norm_num)]
    rw [Int.floor_eq_iff]
    norm_num
  have hs1 : sortLess halfMinAll zeroMinAll = false := by
    rw [sortLess]
    simp [halfMinAll, zeroMinAll, Filter.isOperator, Filter.filterCost, costList,
      compareSetFilter, headTieBreak, Filter.operands, rangeTieBreak, Dbl.isinf,
      Dbl.subTrunc, e1]
  have hs2 : sortLess zeroMinAll halfMinAll = false := by
    rw [sortLess]
    simp [halfMinAll, zeroMinAll, Filter.isOperator, Filter.filterCost, costList,
      compareSetFilter, headTieBreak, Filter.operands, rangeTieBreak, Dbl.isinf,
      Dbl.subTrunc, e2]
  refine ⟨rfl, rfl, ?_, ?_⟩
  · simp [Filter.sort, sortBy, insertBy, hs1]
  · simp [Filter.sort, sortBy, insertBy, hs2]

/-- C7 amended: among cost-tied siblings of which at least one is an operator,
with equal operand counts and first operands that are Ranges on the same key
with infinite upper bounds, the filter whose first-operand range min is larger
by at least 1 is ordered first (the comparator truncates the double difference
of the mins to an int, so only a difference that truncates to a nonzero int
breaks the tie). -/
theorem range_tiebreak_amended (a b fa fb : Filter) (ta tb : List Filter)
    (k : String) (qa qb : ℚ) (amax bmax : Dbl) (ga gb : FilterGlobal)
    (hop : a.isOperator = true ∨ b.isOperator = true)
    (hcost : a.filterCost = b.filterCost)
    (hoa : a.operands = fa :: ta) (hob : b.operands = fb :: tb)
    (hlen : ta.length = tb.length)
    (hfa : fa = Filter.range k (Dbl.fin qa) amax ga)
    (hfb : fb = Filter.range k (Dbl.fin qb) bmax gb)
    (hainf : amax.isinf = true) (hbinf : bmax.isinf = true)
    (hmin : qb + 1 ≤ qa) :
    Filter.sort [b, a] = [a, b] ∧ Filter.sort [a, b] = [a, b] := by
  have hnotboth : (!a.isOperator && !b.isOperator) = false := by
    rcases hop with h | h <;> simp [h]
  have hab : compareSetFilter a b = some (truncToInt (qb - qa)) := by
    rw [compareSetFilter, hoa, hob]
    rw [if_neg (by simp [hlen])]
    rw [headTieBreak, hfa, hfb]
    simp [rangeTieBreak, hainf, hbinf, Dbl.subTrunc]
  have hba : compareSetFilter b a = some (truncToInt (qa - qb)) := by
    rw [compareSetFilter, hoa, hob]
    rw [if_neg (by simp [hlen])]
    rw [headTieBreak, hfa, hfb]
    simp [rangeTieBreak, hainf, hbinf, Dbl.subTrunc]
  have hlt : truncToInt (qb - qa) < 0 := truncToInt_neg _ (by linarith)
  have hnlt : ¬ (truncToInt (qa - qb) < 0) :=
    not_lt.mpr (truncToInt_nonneg _ (by linarith))
  have hLab : sortLess a b = true := by
    rw [sortLess]
    simp [hnotboth, hcost, hab, hlt]
  have hnotboth2 : (!b.isOperator && !a.isOperator) = false := by
    rcases hop with h | h <;> simp [h]
  have hLba : sortLess b a = false := by
    rw [sortLess]
    simp [hnotboth2, hcost, hba, hnlt]
  constructor
  · simp [Filter.sort, sortBy, insertBy, hLab]
  · simp [Filter.sort, sortBy, insertBy, hLba]

/-- Witness for the amended C7 at a concrete input: OperatorAll-wrapped Ranges
on the same key with infinite maxes and mins 2 and 0; the min-2 filter sorts
first from either input order. -/
theorem range_tiebreak_amended_witness :
    Filter.sort [zeroMinAll, twoMinAll] = [twoMinAll, zeroMinAll]
  ∧ Filter.sort [twoMinAll, zeroMinAll] = [twoMinAll, zeroMinAll] :=
  range_tiebreak_amended twoMinAll zeroMinAll
    (Filter.range "k" (Dbl.fin 2) Dbl.pinf FilterGlobal.undefined)
    (Filter.range "k" (Dbl.fin 0) Dbl.pinf FilterGlobal.undefined)
    [] [] "k" 2 0 Dbl.pinf Dbl.pinf FilterGlobal.undefined FilterGlobal.undefined
    (Or.inl rfl) rfl rfl rfl rfl rfl rfl rfl rfl (by norm_num)

end Tangram
